import Mathlib

set_option maxHeartbeats 1000000

namespace TsRestAnnotation

/-! Shallow embedding of the route-annotation pipeline of the
ts-rest-handler-line-annotation repository: the structural-value model,
the object-literal evaluator, the export-table builder, the route
resolver (src/contract-parser.ts) and the decorator extractor
(ast-parser.ts). JavaScript runtime values reachable by the evaluator
are modelled by `Value`; a JS `undefined` (absent key) is modelled as
`Option.none` at lookup sites.  Machine floats never matter here: the
only numbers the evaluator produces come from `parseFloat` on numeric
literal source text, which we abstract as the integer the literal
denotes. -/

/-- Structural value produced by `extractObjectLiteral`: JS null, string,
number, boolean, or a plain object whose own enumerable string-keyed
properties are held in insertion order (JS object / Map iteration
order). Sentinel keys such as `__router`, `__options`, `__method`,
`__call`, `__path` are literal string keys, exactly as in the source. -/
inductive Value where
  | null
  | str (s : String)
  | num (n : Int)
  | bool (b : Bool)
  | obj (entries : List (String × Value))
deriving Repr

/-- JS truthiness of a `Value`: null, the empty string, 0 and false are
falsy; every object is truthy. -/
def truthy : Value → Bool
  | Value.null => false
  | Value.str s => s ≠ ""
  | Value.num n => n ≠ 0
  | Value.bool b => b
  | Value.obj _ => true

/-- JS truthiness through a possibly-absent value (`undefined` is falsy). -/
def truthyOpt : Option Value → Bool
  | none => false
  | some v => truthy v

/-- JS String.prototype.startsWith, computed on the character list so
that the kernel can evaluate it. -/
def strStartsWith (s p : String) : Bool := p.data.isPrefixOf s.data

/-- JS String.prototype.endsWith, computed on the character list. -/
def strEndsWith (s p : String) : Bool := p.data.isSuffixOf s.data

/-- JS String.prototype.toLowerCase (ASCII, which is all the verb names
need), computed on the character list. -/
def strToLower (s : String) : String := String.mk (s.data.map Char.toLower)

/-- JS String.prototype.toUpperCase (ASCII), computed on the character
list. -/
def strToUpper (s : String) : String := String.mk (s.data.map Char.toUpper)

/-- Key lookup in an insertion-ordered object: the value of the first
entry with the key, `none` for JS `undefined` when the key is absent. -/
def getKey : List (String × Value) → String → Option Value
  | [], _ => none
  | (k', v') :: rest, k => if k' = k then some v' else getKey rest k

/-- JS property write `obj[k] = v`: overwrites in place if the key
exists (preserving its position in insertion order), else appends. -/
def setKey : List (String × Value) → String → Value → List (String × Value)
  | [], k, v => [(k, v)]
  | (k', v') :: rest, k, v =>
      if k' = k then (k, v) :: rest else (k', v') :: setKey rest k v

/-- JS property read `v[k]` on an evaluated value: object lookup, and
`undefined` on primitives (the guarded call sites never read properties
of null/undefined). -/
def getProp : Value → String → Option Value
  | Value.obj es, k => getKey es k
  | _, _ => none

/-- `Object.assign(target, source)` restricted to the values the
evaluator produces: object sources copy their entries in order; string
sources copy their index properties ("0", "1", ... each bound to a
one-char string); numbers and booleans have no own enumerable
properties. -/
def assignValue (target : List (String × Value)) : Value → List (String × Value)
  | Value.obj es => es.foldl (fun t p => setKey t p.1 p.2) target
  | Value.str s =>
      (s.toList.enum).foldl
        (fun t p => setKey t (toString p.1) (Value.str (String.singleton p.2))) target
  | _ => target

/-- JS `a || b` where `a` may be `undefined` and `b` is a present value. -/
def jsOrD (a : Option Value) (b : Value) : Value :=
  match a with
  | some v => if truthy v then v else b
  | none => b

/-- JS `a || b` where both sides may be `undefined`. -/
def jsOrOpt (a b : Option Value) : Option Value :=
  if truthyOpt a then a else b

/-- Property-name node of an object-literal member: identifier, string
literal, computed name, or anything else. -/
inductive PropName where
  | ident (s : String)
  | strLit (s : String)
  | computed
  | other
deriving Repr

mutual
/-- Expression subset the object-literal evaluator distinguishes
(`ts.Expression` shapes inspected by `extractObjectLiteral`); every
unhandled expression shape is `other`. -/
inductive Expr where
  | objectLit (props : List ObjProp)
  | strLit (s : String)
  | numLit (n : Int)
  | trueLit
  | falseLit
  | call (callee : Expr) (args : List Expr)
  | ident (name : String)
  | propAccess (base : Expr) (name : String)
  | other
deriving Repr

/-- Member of an object literal: a property assignment, a method
declaration, or anything else (spreads, accessors, ...), which the
evaluator skips. -/
inductive ObjProp where
  | propAssign (name : PropName) (init : Expr)
  | methodDecl (name : PropName)
  | otherProp
deriving Repr
end

/-- getPropertyName from contract-parser.ts: identifier or string
literal text, `none` (skip) for computed names and anything else. -/
def getPropertyName : PropName → Option String
  | PropName.ident s => some s
  | PropName.strLit s => some s
  | PropName.computed => none
  | PropName.other => none

/-- isRouterCall from contract-parser.ts: the callee is a property
access whose name is `router`. -/
def isRouterCall : Expr → Bool
  | Expr.propAccess _ name => name = "router"
  | _ => false

/-- The fixed HTTP verb list of isTsRestMethodCall. -/
def httpMethods : List String :=
  ["get", "post", "put", "patch", "delete", "head", "options"]

/-- isTsRestMethodCall from contract-parser.ts: the callee is a property
access whose name, lowercased, is one of the HTTP verbs. -/
def isTsRestMethodCall : Expr → Bool
  | Expr.propAccess _ name => httpMethods.contains (strToLower name)
  | _ => false

mutual
/-- extractObjectLiteral from contract-parser.ts: the best-effort
structural reduction of an expression. Object literals reduce their
property assignments (method declarations become a `__method: true`
marker object); string/number/boolean literals become scalars; call
expressions are recognized only as router calls or ts-rest HTTP-method
calls; everything else is null. -/
def extractObjectLiteral : Expr → Value
  | Expr.objectLit props => Value.obj (extractProps [] props)
  | Expr.strLit s => Value.str s
  | Expr.numLit n => Value.num n
  | Expr.trueLit => Value.bool true
  | Expr.falseLit => Value.bool false
  | Expr.call callee args =>
      if isRouterCall callee then extractRouterCall args
      else if isTsRestMethodCall callee then extractTsRestMethodCall callee args
      else Value.null
  | Expr.ident _ => Value.null
  | Expr.propAccess _ _ => Value.null
  | Expr.other => Value.null

/-- The property loop of extractObjectLiteral on an object literal:
assigns each named property's reduced initializer into the accumulator
(keys from identifiers or string literals only; computed names are
dropped), and a `__method: true` marker object for method members. -/
def extractProps (acc : List (String × Value)) : List ObjProp → List (String × Value)
  | [] => acc
  | ObjProp.propAssign name init :: rest =>
      match getPropertyName name with
      | some key => extractProps (setKey acc key (extractObjectLiteral init)) rest
      | none => extractProps acc rest
  | ObjProp.methodDecl name :: rest =>
      match getPropertyName name with
      | some key =>
          extractProps (setKey acc key (Value.obj [("__method", Value.bool true)])) rest
      | none => extractProps acc rest
  | ObjProp.otherProp :: rest => extractProps acc rest

/-- extractRouterCall from contract-parser.ts: `{ __router: true }`
merged (Object.assign) with the evaluated first argument when that is
truthy, plus `__options` set to the evaluated second argument when that
is truthy. -/
def extractRouterCall (args : List Expr) : Value :=
  let router0 : List (String × Value) := [("__router", Value.bool true)]
  let router1 :=
    match args with
    | a1 :: _ =>
        let routesObj := extractObjectLiteral a1
        if truthy routesObj then assignValue router0 routesObj else router0
    | [] => router0
  let router2 :=
    match args with
    | _ :: a2 :: _ =>
        let options := extractObjectLiteral a2
        if truthy options then setKey router1 "__options" options else router1
    | _ => router1
  Value.obj router2

/-- extractTsRestMethodCall from contract-parser.ts: tags
`method`/`__method` with the uppercased verb name and `__call: true`;
sets `path`/`__path` from a string-literal first argument; then merges
(Object.assign) the evaluated second argument when truthy — so options
are merged after method and path are set. -/
def extractTsRestMethodCall (callee : Expr) (args : List Expr) : Value :=
  match callee with
  | Expr.propAccess _ name =>
      let methodName := strToUpper name
      let route0 : List (String × Value) :=
        [("method", Value.str methodName), ("__method", Value.str methodName),
         ("__call", Value.bool true)]
      let route1 :=
        match args with
        | Expr.strLit s :: _ =>
            setKey (setKey route0 "path" (Value.str s)) "__path" (Value.str s)
        | _ => route0
      let route2 :=
        match args with
        | _ :: a2 :: _ =>
            let optionsArg := extractObjectLiteral a2
            if truthy optionsArg then assignValue route1 optionsArg else route1
        | _ => route1
      Value.obj route2
  | _ => Value.null
end

/-- findRouteInContract's nested-object scan: among the object's own
entries, the first child that is itself an object, whose key does not
start with `__`, and that has a truthy child named `routeName`, yields
that grandchild. -/
def scanChildren (routeName : String) : List (String × Value) → Value
  | [] => Value.null
  | (k, v) :: rest =>
      match v with
      | Value.obj es2 =>
          if ¬ strStartsWith k "__" then
            match getKey es2 routeName with
            | some r => if truthy r then r else scanChildren routeName rest
            | none => scanChildren routeName rest
          else scanChildren routeName rest
      | _ => scanChildren routeName rest

/-- findRouteInContract from contract-parser.ts: null for non-objects or
an empty property path; else the truthy direct child named by the first
path segment (the redundant `__router` re-check of the source is kept),
else the nested-object scan. Only the first path segment is consulted. -/
def findRouteInContract (contractObj : Value) (propertyPath : List String) : Value :=
  match contractObj, propertyPath with
  | Value.obj es, routeName :: _ =>
      let direct := getKey es routeName
      if truthyOpt direct then direct.getD Value.null
      else if truthyOpt (getKey es "__router") && truthyOpt direct then direct.getD Value.null
      else scanChildren routeName es
  | _, _ => Value.null

/-- The property-path navigation loop of findContractByPath: step into
`current[part]` while `current` is an object carrying the key (`part in
current`), failing with null otherwise. -/
def navigatePath : Value → List String → Value
  | current, [] => current
  | current, part :: rest =>
      match current with
      | Value.obj es =>
          match getKey es part with
          | some v => navigatePath v rest
          | none => Value.null
      | _ => Value.null

/-- findContractByPath from contract-parser.ts: start from the export
named by the path's first segment, falling back (by JS `||`) to the
`default` export, then navigate the remaining segments. -/
def findContractByPath (exports : List (String × Value)) (propertyPath : List String) : Value :=
  match propertyPath with
  | [] => Value.null
  | firstPart :: restPath =>
      let g := getKey exports firstPart
      let current := if truthyOpt g then g else getKey exports "default"
      match current with
      | some c => if truthy c then navigatePath c restPath else Value.null
      | none => Value.null

/-- The all-exports fallback loop of extractRouteInfo: the first export,
in insertion order, for which findRouteInContract yields a truthy value. -/
def scanExports (exports : List (String × Value)) (propertyPath : List String) : Value :=
  match exports with
  | [] => Value.null
  | (_, v) :: rest =>
      let r := findRouteInContract v propertyPath
      if truthy r then r else scanExports rest propertyPath

/-- The default-import lookup cascade of extractRouteInfo: direct
path-based traversal (findContractByPath), then router-aware lookup in
the `default` export, then in the export named `contract`, then the
insertion-order scan over every export. -/
def defaultLookup (exports : List (String × Value)) (propertyPath : List String) : Value :=
  let b1 := findContractByPath exports propertyPath
  if truthy b1 then b1
  else
    let b2 :=
      match getKey exports "default" with
      | some d => if truthy d then findRouteInContract d propertyPath else Value.null
      | none => Value.null
    if truthy b2 then b2
    else
      let b3 :=
        match getKey exports "contract" with
        | some c => if truthy c then findRouteInContract c propertyPath else Value.null
        | none => Value.null
      if truthy b3 then b3 else scanExports exports propertyPath

/-- Import-binding hint passed to extractRouteInfo (the relevant fields
of ImportResolution from types.ts). -/
structure ImportInfo where
  exportName : Option String
  isDefaultImport : Bool
deriving Repr

/-- The base-contract location step of extractRouteInfo: a hint with a
truthy exportName scopes the router-aware lookup to that single export
(no fallback when it is absent); otherwise the default-import cascade
runs. -/
def lookupBaseContract (exports : List (String × Value)) (propertyPath : List String)
    (importInfo : Option ImportInfo) : Value :=
  match importInfo with
  | some info =>
      match info.exportName with
      | some en =>
          if en ≠ "" then
            match getKey exports en with
            | some exportObj =>
                if truthy exportObj then findRouteInContract exportObj propertyPath
                else Value.null
            | none => Value.null
          else defaultLookup exports propertyPath
      | none => defaultLookup exports propertyPath
  | none => defaultLookup exports propertyPath

/-- ContractDefinition from types.ts: the normalized route definition;
`none` fields model JS `undefined`. -/
structure ContractDefinition where
  method : Option Value
  path : Option Value
  summary : Option Value
  description : Option Value
  responses : Option Value
  body : Option Value
  query : Option Value
  params : Option Value
deriving Repr

/-- Strict-equality test `contractObj.__type === 'route'`. -/
def isTypeRoute : Option Value → Bool
  | some (Value.str s) => s = "route"
  | _ => false

/-- JS `String.prototype.toUpperCase` on a `Value`, as `Except`: a
TypeError (caught by extractRouteInfo's catch-all) on truthy
non-strings; the call sites never reach it with a falsy value. -/
def valueToUpper : Value → Except Unit Value
  | Value.str s => Except.ok (Value.str (strToUpper s))
  | _ => Except.error ()

/-- extractFromTsRestRoute from contract-parser.ts: method from
`method || __method || 'GET'` uppercased (throwing on a truthy
non-string), path from `path || __path || '/'`, the raw fields with the
plain name preferred over the dunder name. -/
def extractFromTsRestRoute (es : List (String × Value)) :
    Except Unit (Option ContractDefinition) := do
  let method := jsOrD (getKey es "method") (jsOrD (getKey es "__method") (Value.str "GET"))
  let path := jsOrD (getKey es "path") (jsOrD (getKey es "__path") (Value.str "/"))
  let upper ← valueToUpper method
  Except.ok (some
    { method := some upper
      path := some path
      summary := jsOrOpt (getKey es "summary") (getKey es "__summary")
      description := jsOrOpt (getKey es "description") (getKey es "__description")
      responses := jsOrOpt (getKey es "responses") (getKey es "__responses")
      body := jsOrOpt (getKey es "body") (getKey es "__body")
      query := jsOrOpt (getKey es "query") (getKey es "__query")
      params := jsOrOpt (getKey es "params") (getKey es "__params") })

/-- The final fallback branch of extractRouteDefinition: when
`__method` or `__path` is truthy, the dunder fields (falling back to
the plain names for the passthrough fields). -/
def routeDunderFallback (es : List (String × Value)) : Option ContractDefinition :=
  if truthyOpt (getKey es "__method") || truthyOpt (getKey es "__path") then
    some
      { method := getKey es "__method"
        path := getKey es "__path"
        summary := jsOrOpt (getKey es "__summary") (getKey es "summary")
        description := jsOrOpt (getKey es "__description") (getKey es "description")
        responses := jsOrOpt (getKey es "__responses") (getKey es "responses")
        body := jsOrOpt (getKey es "__body") (getKey es "body")
        query := jsOrOpt (getKey es "__query") (getKey es "query")
        params := jsOrOpt (getKey es "__params") (getKey es "params") }
  else none

mutual
/-- extractRouteDefinition from contract-parser.ts: null for
non-objects; direct `method`/`path` fields if either is truthy; the
ts-rest call branch on `__call` (or `__type === 'route'`); recursion
into a truthy `route` field; else the dunder fallback. `Except.error`
models a thrown TypeError (caught by extractRouteInfo). -/
def extractRouteDefinition : Value → Except Unit (Option ContractDefinition)
  | Value.obj es =>
      if truthyOpt (getKey es "method") || truthyOpt (getKey es "path") then
        Except.ok (some
          { method := getKey es "method"
            path := getKey es "path"
            summary := getKey es "summary"
            description := getKey es "description"
            responses := getKey es "responses"
            body := getKey es "body"
            query := getKey es "query"
            params := getKey es "params" })
      else if truthyOpt (getKey es "__call") || isTypeRoute (getKey es "__type") then
        extractFromTsRestRoute es
      else routeFieldRecurse es es
  | _ => Except.ok none

/-- The `if (contractObj.route) recurse` step of extractRouteDefinition,
written as a structural scan for the first `route` entry (the lookup
order of getKey): a truthy `route` value is recursed into, anything
else falls through to the dunder fallback on the full entry list. -/
def routeFieldRecurse (fullEs : List (String × Value)) :
    List (String × Value) → Except Unit (Option ContractDefinition)
  | [] => Except.ok (routeDunderFallback fullEs)
  | (k, v) :: rest =>
      if k = "route" then
        if truthy v then extractRouteDefinition v
        else Except.ok (routeDunderFallback fullEs)
      else routeFieldRecurse fullEs rest
end

/-- One router-options probe of findPathPrefix: the value of
`v.__router && v.__options && v.__options.pathPrefix` when that chain
is truthy (reading `pathPrefix` off a truthy non-object yields
undefined, hence no match). -/
def routerPrefixOf (v : Value) : Option Value :=
  match v with
  | Value.obj es =>
      if truthyOpt (getKey es "__router") then
        let options := getKey es "__options"
        if truthyOpt options then
          let p := options.bind (fun o => getProp o "pathPrefix")
          if truthyOpt p then p else none
        else none
      else none
  | _ => none

/-- The inner loop of findPathPrefix: probe each object-valued child of
an export for router options, first hit wins. -/
def prefixInEntries : List (String × Value) → Option Value
  | [] => none
  | (_, v) :: rest =>
      match v with
      | Value.obj _ =>
          match routerPrefixOf v with
          | some p => some p
          | none => prefixInEntries rest
      | _ => prefixInEntries rest

/-- The outer loop of findPathPrefix: probe each object-valued export
itself, then its children, in table order. -/
def prefixScanExports : List (String × Value) → Option Value
  | [] => none
  | (_, ev) :: rest =>
      match ev with
      | Value.obj es =>
          match routerPrefixOf ev with
          | some p => some p
          | none =>
              match prefixInEntries es with
              | some p => some p
              | none => prefixScanExports rest
      | _ => prefixScanExports rest

/-- findPathPrefix from contract-parser.ts: the empty string for an
empty property path or when no router options carry a truthy
pathPrefix anywhere; else the first pathPrefix value found scanning
every export and one level of its children. -/
def findPathPrefix (exports : List (String × Value)) (propertyPath : List String) : Value :=
  match propertyPath with
  | [] => Value.str ""
  | _ => (prefixScanExports exports).getD (Value.str "")

/-- combinePaths from contract-parser.ts, at the string type of its
signature: empty prefix returns the route path (or "/" when that is
empty); a route path of "" or "/" returns the prefix unchanged; else
both sides are normalized to start with "/", one trailing "/" is
stripped from the prefix, and the two are concatenated. -/
def combinePaths (pathPrefixS routePath : String) : String :=
  if pathPrefixS = "" then (if routePath = "" then "/" else routePath)
  else if routePath = "" ∨ routePath = "/" then pathPrefixS
  else
    let normalizedPrefixS :=
      if strStartsWith pathPrefixS "/" then pathPrefixS else "/" ++ pathPrefixS
    let normalizedRoute :=
      if strStartsWith routePath "/" then routePath else "/" ++ routePath
    let cleanPrefixS :=
      if strEndsWith normalizedPrefixS "/" ∧ normalizedRoute ≠ "/" then
        normalizedPrefixS.dropRight 1
      else normalizedPrefixS
    cleanPrefixS ++ normalizedRoute

/-- Strict-equality test `v === '/'`. -/
def isSlashValue : Value → Bool
  | Value.str s => s = "/"
  | _ => false

/-- combinePaths at the runtime value level (the arguments are typed
string but carry whatever the contract file held): a falsy prefix
returns `routePath || '/'`; a falsy-or-"/" route path returns the
prefix; otherwise both must be strings (a truthy non-string throws a
TypeError at `startsWith`, modelled as `none` and caught by
extractRouteInfo), and the string logic of `combinePaths` runs. -/
def combinePathsV (pathPrefixV routePathV : Value) : Option Value :=
  if ¬ truthy pathPrefixV then
    some (if truthy routePathV then routePathV else Value.str "/")
  else if ¬ truthy routePathV ∨ isSlashValue routePathV then
    some pathPrefixV
  else
    match pathPrefixV, routePathV with
    | Value.str p, Value.str r => some (Value.str (combinePaths p r))
    | _, _ => none

/-- RouteInfo from types.ts; the fields are typed string in the source
but carry runtime values passed through from the contract file. -/
structure RouteInfo where
  method : Value
  path : Value
  summary : Option Value
  fullPath : Value
deriving Repr

/-- extractRouteInfo from contract-parser.ts: locate the base contract
value, extract its route definition, find the global path prefix,
compose the full path, and assemble the RouteInfo; every not-found
condition and every caught exception yields `none`. -/
def extractRouteInfo (exports : List (String × Value)) (propertyPath : List String)
    (importInfo : Option ImportInfo) : Option RouteInfo :=
  let baseContract := lookupBaseContract exports propertyPath importInfo
  if ¬ truthy baseContract then none
  else
    match extractRouteDefinition baseContract with
    | Except.error _ => none
    | Except.ok none => none
    | Except.ok (some routeDefinition) =>
        let pathPrefixV := findPathPrefix exports propertyPath
        match combinePathsV pathPrefixV (jsOrD routeDefinition.path (Value.str "")) with
        | none => none
        | some fullPath =>
            some
              { method := jsOrD routeDefinition.method (Value.str "GET")
                path := jsOrD routeDefinition.path (Value.str "")
                summary := routeDefinition.summary
                fullPath := fullPath }

/-- One variable declaration of a variable statement: the bound name
when it is a plain identifier, and the initializer when present. -/
structure Decl where
  name : Option String
  initializer : Option Expr
deriving Repr

/-- A node the export-table visitor reacts to: a variable statement
(with its export-modifier flag and declarations) or an export
assignment (`export = expr` / `export default expr`). The visitor of
extractExports walks the whole tree; a statement list here is the
depth-first sequence of such nodes it encounters. -/
inductive Stmt where
  | varStmt (isExported : Bool) (decls : List Decl)
  | exportAssign (e : Expr)
deriving Repr

/-- The declaration loop of processVariableStatement: identifier-named
declarations with initializers whose evaluation is truthy are stored
under their name, and additionally under `default` when the statement
is exported and declares exactly one binding (`declCount` is the full
declaration count of the statement). -/
def processDecls (isExported : Bool) (declCount : Nat) :
    List Decl → List (String × Value) → List (String × Value)
  | [], exports => exports
  | d :: rest, exports =>
      match d.name, d.initializer with
      | some name, some init =>
          let value := extractObjectLiteral init
          if truthy value then
            let e1 := setKey exports name value
            let e2 := if isExported ∧ declCount = 1 then setKey e1 "default" value else e1
            processDecls isExported declCount rest e2
          else processDecls isExported declCount rest exports
      | _, _ => processDecls isExported declCount rest exports

/-- processVariableStatement from contract-parser.ts. -/
def processVariableStatement (isExported : Bool) (decls : List Decl)
    (exports : List (String × Value)) : List (String × Value) :=
  processDecls isExported decls.length decls exports

/-- processExportAssignment from contract-parser.ts: store the evaluated
expression under `default` when it is truthy. -/
def processExportAssignment (e : Expr) (exports : List (String × Value)) :
    List (String × Value) :=
  let value := extractObjectLiteral e
  if truthy value then setKey exports "default" value else exports

/-- extractExports from contract-parser.ts: fold the visitor's node
sequence into the export table, starting empty. -/
def extractExports (stmts : List Stmt) : List (String × Value) :=
  stmts.foldl
    (fun exports s =>
      match s with
      | Stmt.varStmt isExported decls => processVariableStatement isExported decls exports
      | Stmt.exportAssign e => processExportAssignment e exports)
    []

/-- The fixed candidate extension order of resolveImportPath. -/
def candidateExtensions : List String := [".ts", ".tsx", ".js", ".jsx"]

/-- resolveImportPath from contract-parser.ts, parameterized over the
Node path functions it calls (resolveFn for path.resolve of the
importing directory and the specifier, dirnameFn for path.dirname,
joinFn for path.join) and the file-system probe statOk (a successful
stat; any stat failure counts as absent). Only specifiers starting with
`.` are handled; candidates are the resolved path plus each extension
in order, then the resolved path's `index` file with each extension in
order; the first existing candidate wins. -/
def resolveImportPath (resolveFn : String → String → String) (dirnameFn : String → String)
    (joinFn : String → String → String) (statOk : String → Bool)
    (importPath fromFile : String) : Option String :=
  if strStartsWith importPath "." then
    let basePath := dirnameFn fromFile
    let resolvedPath := resolveFn basePath importPath
    match candidateExtensions.findSome?
        (fun ext =>
          let fullPath := resolvedPath ++ ext
          if statOk fullPath then some fullPath else none) with
    | some p => some p
    | none =>
        candidateExtensions.findSome?
          (fun ext =>
            let indexPath := joinFn resolvedPath ("index" ++ ext)
            if statOk indexPath then some indexPath else none)
  else none

/-- The full candidate list of resolveImportPath in probe order:
specifier-plus-extension first, index files after. -/
def resolveCandidates (resolvedPath : String) (joinFn : String → String → String) :
    List String :=
  candidateExtensions.map (fun ext => resolvedPath ++ ext) ++
    candidateExtensions.map (fun ext => joinFn resolvedPath ("index" ++ ext))

/-- isTsRestHandlerDecorator from ast-parser.ts: the callee is the plain
identifier TsRestHandler or a property access ending in it. -/
def isTsRestHandlerDecorator (callee : Expr) : Bool :=
  match callee with
  | Expr.ident s => s = "TsRestHandler"
  | Expr.propAccess _ name => name = "TsRestHandler"
  | _ => false

/-- The while-loop of extractContractReference from ast-parser.ts: walk
the argument's property-access chain leftward, unshifting each access
name onto the collected path, until a plain identifier base is reached;
any other terminal base yields none. -/
def extractContractReferenceLoop (acc : List String) : Expr → Option (String × List String)
  | Expr.propAccess base name => extractContractReferenceLoop (name :: acc) base
  | Expr.ident s => some (s, acc)
  | _ => none

/-- extractContractReference from ast-parser.ts, entered with no names
collected yet. -/
def extractContractReference (argument : Expr) : Option (String × List String) :=
  extractContractReferenceLoop [] argument

/-- analyzeDecorator from ast-parser.ts, on the decorator's expression
(the editor-position fields, computed from the text document, are
outside this model): the decorator must be a call of TsRestHandler with
exactly one argument whose contract reference extracts; every other
shape is silently skipped. -/
def analyzeDecorator (decorator : Expr) : Option (String × List String) :=
  match decorator with
  | Expr.call callee args =>
      if ¬ isTsRestHandlerDecorator callee then none
      else
        match args with
        | [argument] => extractContractReference argument
        | _ => none
  | _ => none

/-- The decorator loop of processMethodDecorators: each decorator
expression is analyzed and the successes are collected in order. -/
def analyzeDecorators (decorators : List Expr) : List (String × List String) :=
  decorators.filterMap analyzeDecorator

/-- ts.isCallExpression on the embedded expression type. -/
def isCallExpression : Expr → Bool
  | Expr.call _ _ => true
  | _ => false

/-- ts.isIdentifier on the embedded expression type. -/
def isIdentifierExpr : Expr → Bool
  | Expr.ident _ => true
  | _ => false

/-- The terminal base of a property-access chain: the expression left
after walking every property access leftward. -/
def terminalBase : Expr → Expr
  | Expr.propAccess base _ => terminalBase base
  | e => e

/-- The keys of an entry list are pairwise distinct (the invariant every
object the evaluator builds satisfies, since objects grow only through
`setKey`). -/
def keysNodup (es : List (String × Value)) : Prop :=
  (es.map Prod.fst).Nodup

/-- Path composition in the words of the specification: empty prefix
gives the route path, or "/" if that is empty; a route path of "" or
"/" gives the prefix unchanged; otherwise both are normalized to start
with "/", a single trailing "/" on the prefix is stripped, and the two
are concatenated. -/
def combinePathsSpec (pathPrefixS routePath : String) : String :=
  if pathPrefixS = "" then (if routePath = "" then "/" else routePath)
  else if routePath = "" ∨ routePath = "/" then pathPrefixS
  else
    let np := if strStartsWith pathPrefixS "/" then pathPrefixS else "/" ++ pathPrefixS
    let nr := if strStartsWith routePath "/" then routePath else "/" ++ routePath
    let cp := if strEndsWith np "/" then np.dropRight 1 else np
    cp ++ nr

/-- The default-import hint the annotation provider passes for a default
import: ImportResolution has isDefaultImport true and no exportName. -/
def defaultImportHint : Option ImportInfo :=
  some { exportName := none, isDefaultImport := true }

/-- The route object literal of the round-trip contract:
method POST, path /, summary "Create a new post". -/
def c1RouteLit : Expr :=
  Expr.objectLit
    [ObjProp.propAssign (PropName.ident "method") (Expr.strLit "POST"),
     ObjProp.propAssign (PropName.ident "path") (Expr.strLit "/"),
     ObjProp.propAssign (PropName.ident "summary") (Expr.strLit "Create a new post")]

/-- The round-trip contract file (the shape of the repository's own
examples/posts.contract.ts): `const c = initContract()`, then
`const postsContract = c.router({ createPost: {...} },
{ pathPrefix: '/posts' })`, then a default export of the identifier
(whose evaluation is null and therefore stores nothing). -/
def c1ContractStmts : List Stmt :=
  [Stmt.varStmt false [⟨some "c", some (Expr.call (Expr.ident "initContract") [])⟩],
   Stmt.varStmt false [⟨some "postsContract",
     some (Expr.call (Expr.propAccess (Expr.ident "c") "router")
       [Expr.objectLit [ObjProp.propAssign (PropName.ident "createPost") c1RouteLit],
        Expr.objectLit [ObjProp.propAssign (PropName.ident "pathPrefix") (Expr.strLit "/posts")]])⟩],
   Stmt.exportAssign (Expr.ident "postsContract")]

/-- The round-trip decorator `@TsRestHandler(postsContract.createPost)`. -/
def c1Decorator : Expr :=
  Expr.call (Expr.ident "TsRestHandler")
    [Expr.propAccess (Expr.ident "postsContract") "createPost"]

/-- The RouteInfo the round-trip scenario must produce. -/
def c1Expected : RouteInfo :=
  { method := Value.str "POST", path := Value.str "/",
    summary := some (Value.str "Create a new post"), fullPath := Value.str "/posts" }

/-- A contract file whose route carries a lowercase literal
`method: 'post'`. -/
def c2LowercaseStmts : List Stmt :=
  [Stmt.varStmt false [⟨some "postsContract",
     some (Expr.objectLit
       [ObjProp.propAssign (PropName.ident "createPost")
         (Expr.objectLit
           [ObjProp.propAssign (PropName.ident "method") (Expr.strLit "post"),
            ObjProp.propAssign (PropName.ident "path") (Expr.strLit "/")])])⟩]]

/-- A contract file whose route is built by the verb-builder call
`c.PoSt('/x')` (mixed-case verb name). -/
def c2BuilderStmts : List Stmt :=
  [Stmt.varStmt false [⟨some "api",
     some (Expr.objectLit
       [ObjProp.propAssign (PropName.ident "createPost")
         (Expr.call (Expr.propAccess (Expr.ident "c") "PoSt") [Expr.strLit "/x"])])⟩]]

/-- A contract file whose route has a path but no method. -/
def c2NoMethodStmts : List Stmt :=
  [Stmt.varStmt false [⟨some "api",
     some (Expr.objectLit
       [ObjProp.propAssign (PropName.ident "a")
         (Expr.objectLit
           [ObjProp.propAssign (PropName.ident "path") (Expr.strLit "/y")])])⟩]]

/-- A route value `{ method: 'GET', path: p }` used by the lookup-order
scenarios. -/
def mkRoute (p : String) : Value :=
  Value.obj [("method", Value.str "GET"), ("path", Value.str p)]

/-- Lookup order, scenario: an export named like the path's first
segment wins over a `default` export containing the same leaf key. -/
def c3DirectExports : List (String × Value) :=
  [("getAll", mkRoute "/direct"), ("default", Value.obj [("getAll", mkRoute "/d")])]

/-- Lookup order, scenario: the direct traversal falls back to the
`default` export when no export is named like the first segment. -/
def c3DefaultNavExports : List (String × Value) :=
  [("default", Value.obj [("getAll", mkRoute "/viaDefault")])]

/-- Lookup order, scenario: the router-aware lookup in `default` wins
over the export literally named `contract`. -/
def c3DefaultBeforeContractExports : List (String × Value) :=
  [("contract", Value.obj [("a", mkRoute "/c")]),
   ("default", Value.obj [("a", mkRoute "/d")])]

/-- Lookup order, scenario: the export literally named `contract` wins
over an earlier-declared sibling export in the exhaustive scan. -/
def c3ContractBeforeScanExports : List (String × Value) :=
  [("zzz", Value.obj [("getAll", mkRoute "/z")]),
   ("contract", Value.obj [("getAll", mkRoute "/c3")])]

/-- Lookup order, scenario: two ambiguous sibling exports both holding
the leaf key `getAll`; insertion (declaration) order decides. -/
def c3SiblingExports : List (String × Value) :=
  [("alpha", Value.obj [("getAll", mkRoute "/a")]),
   ("beta", Value.obj [("getAll", mkRoute "/b")])]

/-- A contract file whose route has a numeric path value. -/
def c5NumericPathStmts : List Stmt :=
  [Stmt.varStmt false [⟨some "postsContract",
     some (Expr.objectLit
       [ObjProp.propAssign (PropName.ident "a")
         (Expr.objectLit
           [ObjProp.propAssign (PropName.ident "method") (Expr.strLit "GET"),
            ObjProp.propAssign (PropName.ident "path") (Expr.numLit 1)])])⟩]]

/-- The RouteInfo produced for the numeric-path contract: its fullPath
is the number 1, not a string. -/
def c5NumericRoute : RouteInfo :=
  { method := Value.str "GET", path := Value.num 1, summary := none,
    fullPath := Value.num 1 }

/-- A contract file whose route has a method but no path at all. -/
def c5NoPathStmts : List Stmt :=
  [Stmt.varStmt false [⟨some "api",
     some (Expr.objectLit
       [ObjProp.propAssign (PropName.ident "a")
         (Expr.objectLit
           [ObjProp.propAssign (PropName.ident "method") (Expr.strLit "GET")])])⟩]]

/-- Concrete path.dirname for the module-resolution scenario. -/
def c6Dirname : String → String := fun _ => "/proj/src"

/-- Concrete path.resolve for the module-resolution scenario: join the
base directory with the specifier minus its leading `./`. -/
def c6Resolve : String → String → String := fun base sp => base ++ "/" ++ sp.drop 2

/-- Concrete path.join for the module-resolution scenario. -/
def c6Join : String → String → String := fun a b => a ++ "/" ++ b

/-- The file system of the module-resolution scenario: only
posts.contract/index.ts exists; posts.contract.ts does not. -/
def c6StatOk : String → Bool := fun p => p = "/proj/src/posts.contract/index.ts"

/-- A decorator whose argument's terminal base is a function call, not a
plain identifier. -/
def c8CallBaseDecorator : Expr :=
  Expr.call (Expr.ident "TsRestHandler")
    [Expr.propAccess (Expr.call (Expr.ident "getContract") []) "createPost"]

/-- A well-formed decorator used to show siblings are unaffected. -/
def c8GoodDecorator : Expr :=
  Expr.call (Expr.ident "TsRestHandler")
    [Expr.propAccess (Expr.ident "postsContract") "getAll"]

/-- The options literal of the C10 witness: it overrides both method and
path. -/
def c10Options : Expr :=
  Expr.objectLit
    [ObjProp.propAssign (PropName.ident "summary") (Expr.strLit "s"),
     ObjProp.propAssign (PropName.ident "method") (Expr.strLit "OVERRIDDEN"),
     ObjProp.propAssign (PropName.ident "path") (Expr.strLit "/overridden")]

/-- Whether a value is a JS string. -/
def isStringValue : Value → Bool
  | Value.str _ => true
  | _ => false

/-- The RouteInfo produced when neither a prefix nor a route path is
found: path defaults to the empty string and fullPath to "/". -/
def c5DefaultRoute : RouteInfo :=
  { method := Value.str "GET", path := Value.str "", summary := none,
    fullPath := Value.str "/" }

/-! Helper lemmas about strings, the object model and the lookup
functions. -/

theorem string_length_eq_zero_iff (s : String) : s.length = 0 ↔ s = "" := by
  constructor
  · intro h
    cases s with
    | mk data =>
        simp [String.length] at h
        simp [h]
  · intro h
    subst h
    rfl

theorem string_append_ne_empty_right (a b : String) (hb : b ≠ "") : a ++ b ≠ "" := by
  intro h
  have h2 := congrArg String.length h
  rw [String.length_append] at h2
  have h0 : ("" : String).length = 0 := rfl
  have hb0 : b.length = 0 := by omega
  exact hb ((string_length_eq_zero_iff b).1 hb0)

theorem slash_append_ne_slash (r : String) (hr : r ≠ "") : "/" ++ r ≠ "/" := by
  intro h
  have h2 := congrArg String.length h
  rw [String.length_append] at h2
  have h1 : ("/" : String).length = 1 := rfl
  have hr0 : r.length = 0 := by omega
  exact hr ((string_length_eq_zero_iff r).1 hr0)

theorem getKey_setKey_self (es : List (String × Value)) (k : String) (v : Value) :
    getKey (setKey es k v) k = some v := by
  induction es with
  | nil => simp [setKey, getKey]
  | cons p rest ih =>
      obtain ⟨k0, v0⟩ := p
      by_cases h : k0 = k
      · simp [setKey, h, getKey]
      · simp [setKey, h, getKey, ih]

theorem getKey_setKey_ne (es : List (String × Value)) (k k' : String) (v : Value)
    (h : k' ≠ k) : getKey (setKey es k' v) k = getKey es k := by
  induction es with
  | nil => simp [setKey, getKey, h]
  | cons p rest ih =>
      obtain ⟨k0, v0⟩ := p
      by_cases h0 : k0 = k'
      · subst h0
        simp only [setKey, if_pos rfl, getKey]
        simp [h]
      · simp only [setKey, if_neg h0, getKey]
        by_cases h1 : k0 = k
        · simp [h1]
        · simp [h1, ih]

theorem mem_keys_setKey (es : List (String × Value)) (k : String) (v : Value) (a : String) :
    a ∈ (setKey es k v).map Prod.fst ↔ a ∈ es.map Prod.fst ∨ a = k := by
  induction es with
  | nil => simp [setKey]
  | cons p rest ih =>
      obtain ⟨k0, v0⟩ := p
      by_cases h : k0 = k
      · subst h
        simp [setKey]
        tauto
      · simp [setKey, h, ih]
        tauto

theorem keysNodup_setKey (es : List (String × Value)) (k : String) (v : Value)
    (h : keysNodup es) : keysNodup (setKey es k v) := by
  induction es with
  | nil => simp [setKey, keysNodup]
  | cons p rest ih =>
      obtain ⟨k0, v0⟩ := p
      unfold keysNodup at h
      rw [List.map_cons, List.nodup_cons] at h
      by_cases h0 : k0 = k
      · unfold keysNodup
        have hs : setKey ((k0, v0) :: rest) k v = (k, v) :: rest := by simp [setKey, h0]
        rw [hs, List.map_cons, List.nodup_cons]
        exact ⟨h0 ▸ h.1, h.2⟩
      · unfold keysNodup
        simp only [setKey, if_neg h0, List.map_cons, List.nodup_cons]
        constructor
        · intro hmem
          rcases (mem_keys_setKey rest k v k0).1 hmem with hmem0 | hkk
          · exact h.1 hmem0
          · exact h0 hkk
        · exact ih h.2

theorem getKey_eq_none_iff (es : List (String × Value)) (k : String) :
    getKey es k = none ↔ k ∉ es.map Prod.fst := by
  induction es with
  | nil => simp [getKey]
  | cons p rest ih =>
      obtain ⟨k0, v0⟩ := p
      by_cases h : k0 = k
      · subst h
        simp [getKey]
      · simp only [getKey, if_neg h, List.map_cons, List.mem_cons]
        rw [ih]
        constructor
        · intro hnot hor
          rcases hor with hk | hmem
          · exact h hk.symm
          · exact hnot hmem
        · intro hnot hmem
          exact hnot (Or.inr hmem)

theorem getKey_foldl_setKey_of_none (src : List (String × Value)) (k : String) :
    ∀ tgt : List (String × Value), getKey src k = none →
      getKey (src.foldl (fun t p => setKey t p.1 p.2) tgt) k = getKey tgt k := by
  induction src with
  | nil => intro tgt _; rfl
  | cons p rest ih =>
      intro tgt h
      obtain ⟨k0, v0⟩ := p
      have hk0 : k0 ≠ k := by
        intro hk
        simp [getKey, hk] at h
      have hrest : getKey rest k = none := by
        simpa [getKey, hk0] using h
      simpa using (ih (setKey tgt k0 v0) hrest).trans (getKey_setKey_ne tgt k k0 v0 hk0)

theorem getKey_foldl_setKey_of_some (src : List (String × Value)) (k : String) (v : Value) :
    ∀ tgt : List (String × Value), keysNodup src → getKey src k = some v →
      getKey (src.foldl (fun t p => setKey t p.1 p.2) tgt) k = some v := by
  induction src with
  | nil => intro tgt _ h; simp [getKey] at h
  | cons p rest ih =>
      intro tgt hnd h
      obtain ⟨k0, v0⟩ := p
      unfold keysNodup at hnd
      rw [List.map_cons, List.nodup_cons] at hnd
      by_cases hk0 : k0 = k
      · subst hk0
        simp [getKey] at h
        subst h
        have hrest : getKey rest k0 = none := by
          rw [getKey_eq_none_iff]
          exact hnd.1
        have := getKey_foldl_setKey_of_none rest k0 (setKey tgt k0 v0) hrest
        simpa [getKey_setKey_self] using this
      · have hrest : getKey rest k = some v := by
          simpa [getKey, hk0] using h
        simpa using ih (setKey tgt k0 v0) hnd.2 hrest

theorem keysNodup_foldl_setKey {α : Type} (l : List α) (f : α → String) (g : α → Value) :
    ∀ t : List (String × Value), keysNodup t →
      keysNodup (l.foldl (fun acc x => setKey acc (f x) (g x)) t) := by
  induction l with
  | nil => intro t h; simpa
  | cons x rest ih =>
      intro t h
      simpa using ih (setKey t (f x) (g x)) (keysNodup_setKey t (f x) (g x) h)

theorem ne_empty_str_of_truthy (v : Value) (h : truthy v = true) : v ≠ Value.str "" := by
  cases v <;> simp_all [truthy]

theorem truthy_null : truthy Value.null = false := rfl

theorem combinePaths_ne_empty (p r : String) : combinePaths p r ≠ "" := by
  unfold combinePaths
  by_cases hp : p = ""
  · rw [if_pos hp]
    by_cases hr : r = ""
    · rw [if_pos hr]
      decide
    · rw [if_neg hr]
      exact hr
  · rw [if_neg hp]
    by_cases hr : r = "" ∨ r = "/"
    · rw [if_pos hr]
      exact hp
    · rw [if_neg hr]
      simp only []
      have hrne : r ≠ "" := fun h0 => hr (Or.inl h0)
      have hnr : (if strStartsWith r "/" then r else "/" ++ r) ≠ "" := by
        by_cases hs : strStartsWith r "/"
        · rw [if_pos hs]
          exact hrne
        · rw [if_neg hs]
          exact string_append_ne_empty_right "/" r hrne
      exact string_append_ne_empty_right _ _ hnr

theorem combinePathsV_ne_empty_str (p q v : Value) (h : combinePathsV p q = some v) :
    v ≠ Value.str "" := by
  unfold combinePathsV at h
  by_cases hp : truthy p = true
  · rw [if_neg (not_not_intro hp)] at h
    by_cases hq : ¬ truthy q = true ∨ isSlashValue q = true
    · rw [if_pos hq] at h
      have hv := Option.some.inj h
      rw [← hv]
      exact ne_empty_str_of_truthy p hp
    · rw [if_neg hq] at h
      rcases p with _ | ps | pn | pb | pes <;> rcases q with _ | qs | qn | qb | qes <;>
        (try exact Option.noConfusion h)
      have hv := Option.some.inj h
      rw [← hv]
      intro hcontra
      exact combinePaths_ne_empty ps qs (Value.str.inj hcontra)
  · rw [if_pos hp] at h
    have hv := Option.some.inj h
    rw [← hv]
    by_cases hq : truthy q = true
    · rw [if_pos hq]
      exact ne_empty_str_of_truthy q hq
    · rw [if_neg hq]
      intro hcontra
      have h2 := Value.str.inj hcontra
      simp at h2

theorem findRouteInContract_nil (v : Value) : findRouteInContract v [] = Value.null := by
  cases v <;> rfl

theorem scanExports_nil (l : List (String × Value)) : scanExports l [] = Value.null := by
  induction l with
  | nil => rfl
  | cons p rest ih =>
      obtain ⟨k, v⟩ := p
      simp [scanExports, findRouteInContract_nil, truthy, ih]

theorem defaultLookup_nil (exports : List (String × Value)) :
    defaultLookup exports [] = Value.null := by
  unfold defaultLookup
  have h1 : findContractByPath exports [] = Value.null := rfl
  rw [h1]
  simp only [truthy_null, Bool.false_eq_true, if_false]
  cases hd : getKey exports "default" with
  | none =>
      simp only [truthy_null, Bool.false_eq_true, if_false]
      cases hc : getKey exports "contract" with
      | none => simp [truthy_null, scanExports_nil]
      | some c =>
          by_cases htc : truthy c = true <;>
            simp [htc, findRouteInContract_nil, truthy_null, scanExports_nil]
  | some d =>
      by_cases htd : truthy d = true
      · simp only [htd, if_true, findRouteInContract_nil, truthy_null,
          Bool.false_eq_true, if_false]
        cases hc : getKey exports "contract" with
        | none => simp [truthy_null, scanExports_nil]
        | some c =>
            by_cases htc : truthy c = true <;>
              simp [htc, findRouteInContract_nil, truthy_null, scanExports_nil]
      · simp only [htd, if_false, truthy_null, Bool.false_eq_true]
        cases hc : getKey exports "contract" with
        | none => simp [truthy_null, scanExports_nil]
        | some c =>
            by_cases htc : truthy c = true <;>
              simp [htc, findRouteInContract_nil, truthy_null, scanExports_nil]

theorem lookupBaseContract_nil (exports : List (String × Value)) (info : Option ImportInfo) :
    lookupBaseContract exports [] info = Value.null := by
  cases info with
  | none =>
      simp only [lookupBaseContract]
      exact defaultLookup_nil exports
  | some i =>
      cases hen : i.exportName with
      | none =>
          simp only [lookupBaseContract, hen]
          exact defaultLookup_nil exports
      | some en =>
          simp only [lookupBaseContract, hen]
          by_cases he : en = ""
          · rw [if_neg (by simp [he])]
            exact defaultLookup_nil exports
          · rw [if_pos he]
            cases hg : getKey exports en with
            | none => simp
            | some exportObj =>
                simp only []
                by_cases ht : truthy exportObj = true
                · rw [if_pos ht]
                  exact findRouteInContract_nil exportObj
                · rw [if_neg ht]

theorem keysNodup_extractProps (props : List ObjProp) :
    ∀ acc : List (String × Value), keysNodup acc → keysNodup (extractProps acc props) := by
  induction props with
  | nil => intro acc h; simpa [extractProps] using h
  | cons p rest ih =>
      intro acc h
      cases p with
      | propAssign name init =>
          cases hn : getPropertyName name with
          | some key =>
              rw [show extractProps acc (ObjProp.propAssign name init :: rest)
                  = extractProps (setKey acc key (extractObjectLiteral init)) rest by
                simp [extractProps, hn]]
              exact ih _ (keysNodup_setKey _ _ _ h)
          | none =>
              rw [show extractProps acc (ObjProp.propAssign name init :: rest)
                  = extractProps acc rest by simp [extractProps, hn]]
              exact ih _ h
      | methodDecl name =>
          cases hn : getPropertyName name with
          | some key =>
              rw [show extractProps acc (ObjProp.methodDecl name :: rest)
                  = extractProps (setKey acc key (Value.obj [("__method", Value.bool true)])) rest by
                simp [extractProps, hn]]
              exact ih _ (keysNodup_setKey _ _ _ h)
          | none =>
              rw [show extractProps acc (ObjProp.methodDecl name :: rest)
                  = extractProps acc rest by simp [extractProps, hn]]
              exact ih _ h
      | otherProp =>
          rw [show extractProps acc (ObjProp.otherProp :: rest) = extractProps acc rest by
            simp [extractProps]]
          exact ih _ h

theorem keysNodup_assignValue (t : List (String × Value)) (v : Value) (h : keysNodup t) :
    keysNodup (assignValue t v) := by
  cases v with
  | obj es =>
      simpa [assignValue] using keysNodup_foldl_setKey es Prod.fst Prod.snd t h
  | str s =>
      simpa [assignValue] using
        keysNodup_foldl_setKey (s.toList.enum) (fun p => toString p.1)
          (fun p => Value.str (String.singleton p.2)) t h
  | null => simpa [assignValue] using h
  | num n => simpa [assignValue] using h
  | bool b => simpa [assignValue] using h

theorem keysNodup_extractRouterCall (args : List Expr) (os : List (String × Value))
    (h : extractRouterCall args = Value.obj os) : keysNodup os := by
  have h0 : keysNodup [("__router", Value.bool true)] := by simp [keysNodup]
  cases args with
  | nil =>
      simp only [extractRouterCall] at h
      injection h with h2
      subst h2
      exact h0
  | cons a1 rest =>
      cases rest with
      | nil =>
          by_cases ht : truthy (extractObjectLiteral a1) = true
          · simp only [extractRouterCall, ht, if_true] at h
            injection h with h2
            subst h2
            exact keysNodup_assignValue _ _ h0
          · simp only [extractRouterCall, ht, Bool.false_eq_true, if_false] at h
            injection h with h2
            subst h2
            exact h0
      | cons a2 rest2 =>
          by_cases ht1 : truthy (extractObjectLiteral a1) = true <;>
            by_cases ht2 : truthy (extractObjectLiteral a2) = true
          · simp only [extractRouterCall, ht1, ht2, if_true] at h
            injection h with h2
            subst h2
            exact keysNodup_setKey _ _ _ (keysNodup_assignValue _ _ h0)
          · simp only [extractRouterCall, ht1, ht2, if_true, Bool.false_eq_true, if_false] at h
            injection h with h2
            subst h2
            exact keysNodup_assignValue _ _ h0
          · simp only [extractRouterCall, ht1, ht2, if_true, Bool.false_eq_true, if_false] at h
            injection h with h2
            subst h2
            exact keysNodup_setKey _ _ _ h0
          · simp only [extractRouterCall, ht1, ht2, Bool.false_eq_true, if_false] at h
            injection h with h2
            subst h2
            exact h0

theorem keysNodup_extractTsRestMethodCall (callee : Expr) (args : List Expr)
    (os : List (String × Value)) (h : extractTsRestMethodCall callee args = Value.obj os) :
    keysNodup os := by
  cases callee
  case propAccess b name =>
      have h0 : keysNodup
          [("method", Value.str name.toUpper), ("__method", Value.str name.toUpper),
           ("__call", Value.bool true)] := by simp [keysNodup]
      cases args with
      | nil =>
          simp only [extractTsRestMethodCall] at h
          injection h with h2
          subst h2
          exact h0
      | cons a1 rest =>
          cases rest with
          | nil =>
              cases a1
              case strLit s =>
                  simp only [extractTsRestMethodCall] at h
                  injection h with h2
                  subst h2
                  exact keysNodup_setKey _ _ _ (keysNodup_setKey _ _ _ h0)
              all_goals
                simp only [extractTsRestMethodCall] at h
              all_goals
                injection h with h2
              all_goals
                subst h2
              all_goals
                exact h0
          | cons a2 rest2 =>
              by_cases ht2 : truthy (extractObjectLiteral a2) = true <;>
                cases a1 <;>
                  simp only [extractTsRestMethodCall, ht2, if_true, Bool.false_eq_true,
                    if_false] at h <;>
                  injection h with h2 <;>
                  subst h2 <;>
                  first
                    | exact keysNodup_assignValue _ _
                        (keysNodup_setKey _ _ _ (keysNodup_setKey _ _ _ h0))
                    | exact keysNodup_assignValue _ _ h0
                    | exact keysNodup_setKey _ _ _ (keysNodup_setKey _ _ _ h0)
                    | exact h0
  all_goals exact absurd h (by simp [extractTsRestMethodCall])

theorem keysNodup_extractObjectLiteral (e : Expr) (os : List (String × Value))
    (h : extractObjectLiteral e = Value.obj os) : keysNodup os := by
  cases e
  case objectLit props =>
      simp only [extractObjectLiteral] at h
      injection h with h2
      subst h2
      exact keysNodup_extractProps props [] (by simp [keysNodup])
  case call callee args =>
      simp only [extractObjectLiteral] at h
      by_cases hr : isRouterCall callee = true
      · rw [if_pos hr] at h
        exact keysNodup_extractRouterCall args os h
      · rw [if_neg hr] at h
        by_cases hm : isTsRestMethodCall callee = true
        · rw [if_pos hm] at h
          exact keysNodup_extractTsRestMethodCall callee args os h
        · rw [if_neg hm] at h
          exact absurd h (by simp)
  all_goals exact absurd h (by simp [extractObjectLiteral])

theorem extractContractReferenceLoop_none_aux (n : Nat) :
    ∀ e : Expr, sizeOf e ≤ n → isIdentifierExpr (terminalBase e) = false →
      ∀ acc : List String, extractContractReferenceLoop acc e = none := by
  induction n with
  | zero =>
      intro e he
      cases e <;> simp at he
  | succ n ih =>
      intro e he h acc
      cases e
      case propAccess base name =>
          have hb : sizeOf base ≤ n := by
            simp at he
            omega
          have ht : isIdentifierExpr (terminalBase base) = false := by
            simpa [terminalBase] using h
          rw [show extractContractReferenceLoop acc (Expr.propAccess base name)
              = extractContractReferenceLoop (name :: acc) base from rfl]
          exact ih base hb ht (name :: acc)
      case ident s =>
          exact absurd h (by simp [terminalBase, isIdentifierExpr])
      all_goals rfl

/-! The claim theorems. -/

/-- C1: for the round-trip contract file (a router wrapping
createPost = POST / "Create a new post" with pathPrefix "/posts") and
the decorator argument postsContract.createPost under a default import,
extractRouteInfo returns method POST, path "/", fullPath "/posts" (the
prefix absorbs the root route path) and the summary. -/
theorem claim_C1_round_trip :
    analyzeDecorator c1Decorator = some ("postsContract", ["createPost"])
  ∧ extractRouteInfo (extractExports c1ContractStmts) ["createPost"] defaultImportHint
      = some c1Expected := by
  exact ⟨rfl, rfl⟩

/-- C2 counterexample: a contract route written literally with
method: 'post' resolves to a RouteInfo whose method field is the
lowercase "post", not "POST" — extractRouteInfo performs no case
conversion on a method found as a plain field. -/
theorem claim_C2_counterexample :
    extractRouteInfo (extractExports c2LowercaseStmts) ["createPost"] defaultImportHint
      = some ⟨Value.str "post", Value.str "/", none, Value.str "/"⟩
  ∧ Value.str "post" ≠ Value.str "POST" := by
  refine ⟨rfl, by simp⟩

/-- C2 amended: the method field of the returned RouteInfo is the
method value found in the contract unchanged — no case conversion —
defaulting to "GET" when absent; only routes built by an HTTP-verb
builder call carry an uppercased method, because
extractTsRestMethodCall uppercases the verb name itself. -/
theorem claim_C2_amended :
    extractRouteInfo (extractExports c2LowercaseStmts) ["createPost"] defaultImportHint
      = some ⟨Value.str "post", Value.str "/", none, Value.str "/"⟩
  ∧ extractRouteInfo (extractExports c2BuilderStmts) ["createPost"] defaultImportHint
      = some ⟨Value.str "POST", Value.str "/x", none, Value.str "/x"⟩
  ∧ extractRouteInfo (extractExports c2NoMethodStmts) ["a"] defaultImportHint
      = some ⟨Value.str "GET", Value.str "/y", none, Value.str "/y"⟩ := by
  exact ⟨rfl, rfl, rfl⟩

/-- C3: the default-import lookup order, witnessed at one scenario per
edge: (1) direct path-based traversal from the export named by the
first segment wins over the default export; (2) that traversal falls
back to the default export; (3) router-aware lookup in the default
export wins over the export named contract; (4) the contract export
wins over the insertion-order scan (even against an earlier-declared
export); (5) two ambiguous sibling exports resolve to the first one in
declaration order. -/
theorem claim_C3_lookup_order :
    extractRouteInfo c3DirectExports ["getAll"] defaultImportHint
      = some ⟨Value.str "GET", Value.str "/direct", none, Value.str "/direct"⟩
  ∧ extractRouteInfo c3DefaultNavExports ["x", "getAll"] defaultImportHint
      = some ⟨Value.str "GET", Value.str "/viaDefault", none, Value.str "/viaDefault"⟩
  ∧ extractRouteInfo c3DefaultBeforeContractExports ["a", "x"] defaultImportHint
      = some ⟨Value.str "GET", Value.str "/d", none, Value.str "/d"⟩
  ∧ extractRouteInfo c3ContractBeforeScanExports ["getAll"] defaultImportHint
      = some ⟨Value.str "GET", Value.str "/c3", none, Value.str "/c3"⟩
  ∧ extractRouteInfo c3SiblingExports ["getAll"] defaultImportHint
      = some ⟨Value.str "GET", Value.str "/a", none, Value.str "/a"⟩ := by
  exact ⟨rfl, rfl, rfl, rfl, rfl⟩

/-- C4: combinePaths satisfies the specification's case analysis (empty
prefix returns the route path or "/"; route path "" or "/" returns the
prefix unchanged; otherwise both normalized to start with "/", one
trailing slash stripped from the prefix, then concatenated), and in
particular "/posts/" with "/comments" composes to "/posts/comments". -/
theorem claim_C4_combine_paths :
    (∀ p r : String, combinePaths p r = combinePathsSpec p r)
  ∧ combinePaths "/posts/" "/comments" = "/posts/comments" := by
  constructor
  · intro p r
    unfold combinePaths combinePathsSpec
    by_cases hp : p = ""
    · rw [if_pos hp, if_pos hp]
    · rw [if_neg hp, if_neg hp]
      by_cases hr : r = "" ∨ r = "/"
      · rw [if_pos hr, if_pos hr]
      · rw [if_neg hr, if_neg hr]
        simp only []
        have hnr : (if strStartsWith r "/" then r else "/" ++ r) ≠ "/" := by
          by_cases hs : strStartsWith r "/"
          · rw [if_pos hs]
            intro h0
            exact hr (Or.inr h0)
          · rw [if_neg hs]
            exact slash_append_ne_slash r (fun h0 => hr (Or.inl h0))
        congr 1
        exact if_congr (and_iff_left hnr) rfl rfl
  · rfl

/-- C7 counterexample: the initializer `false` evaluates to a non-Null
value, yet the export-table builder stores nothing for it (the code
checks JS truthiness, not non-Nullness), even for an exported
single-binding statement. -/
theorem claim_C7_counterexample :
    extractObjectLiteral Expr.falseLit ≠ Value.null
  ∧ extractExports [Stmt.varStmt true [⟨some "flag", some Expr.falseLit⟩]] = [] := by
  refine ⟨by simp [extractObjectLiteral], rfl⟩

/-- C9: extractRouteInfo with an empty property path always returns
null, for every export table and import hint, while the decorator
extractor accepts a bare identifier argument with an empty property
path. -/
theorem claim_C9_empty_path :
    (∀ (exports : List (String × Value)) (info : Option ImportInfo),
        extractRouteInfo exports [] info = none)
  ∧ ∀ b : String, extractContractReference (Expr.ident b) = some (b, []) := by
  constructor
  · intro exports info
    simp [extractRouteInfo, lookupBaseContract_nil, truthy_null]
  · intro b
    rfl

/-- C5 counterexample: a contract route whose path is the number 1
yields a RouteInfo whose fullPath is the number 1 — not a string — so
fullPath is not always a non-empty string. -/
theorem claim_C5_counterexample :
    extractRouteInfo (extractExports c5NumericPathStmts) ["a"] defaultImportHint
      = some c5NumericRoute
  ∧ isStringValue c5NumericRoute.fullPath = false := by
  exact ⟨rfl, rfl⟩

/-- C5 amended: for every RouteInfo the pipeline returns, fullPath is
never the empty string (it is the route path value itself, the prefix
value, "/" when both are missing, or a slash-normalized concatenation);
and when neither a path prefix nor a route path is found, fullPath is
"/". A non-string path or prefix value can however pass through
unchanged, so fullPath need not be a string. -/
theorem claim_C5_amended :
    (∀ (exports : List (String × Value)) (path : List String) (info : Option ImportInfo)
        (r : RouteInfo), extractRouteInfo exports path info = some r →
          r.fullPath ≠ Value.str "")
  ∧ extractRouteInfo (extractExports c5NoPathStmts) ["a"] defaultImportHint
      = some c5DefaultRoute := by
  constructor
  · intro exports path info r h
    simp only [extractRouteInfo] at h
    by_cases hb : truthy (lookupBaseContract exports path info) = true
    · rw [if_neg (not_not_intro hb)] at h
      cases hrd : extractRouteDefinition (lookupBaseContract exports path info) with
      | error u =>
          rw [hrd] at h
          exact absurd h (by simp)
      | ok o =>
          rw [hrd] at h
          cases o with
          | none => exact absurd h (by simp)
          | some rd =>
              simp only [] at h
              cases hcp : combinePathsV (findPathPrefix exports path)
                  (jsOrD rd.path (Value.str "")) with
              | none =>
                  rw [hcp] at h
                  exact absurd h (by simp)
              | some fp =>
                  rw [hcp] at h
                  simp only [Option.some.injEq] at h
                  have hfp := combinePathsV_ne_empty_str _ _ _ hcp
                  rw [← h]
                  simpa using hfp
    · rw [if_pos hb] at h
      exact absurd h (by simp)
  · rfl

/-- C5 witness: the general non-emptiness theorem applied at the
concrete no-path contract. -/
theorem claim_C5_witness :
    extractRouteInfo (extractExports c5NoPathStmts) ["a"] defaultImportHint
      = some c5DefaultRoute
  ∧ c5DefaultRoute.fullPath ≠ Value.str "" :=
  ⟨rfl, claim_C5_amended.1 (extractExports c5NoPathStmts) ["a"] defaultImportHint
    c5DefaultRoute rfl⟩

/-- C6: module resolution handles only specifiers starting with the
relative marker "." (everything else is none); for relative specifiers
it returns exactly the first existing candidate of the fixed probe list
(specifier plus .ts, .tsx, .js, .jsx, then index files with the same
extensions); and in the concrete scenario where posts.contract.ts is
absent but posts.contract/index.ts exists, it resolves to the index
file. -/
theorem claim_C6_module_resolution :
    (∀ (resolveFn : String → String → String) (dirnameFn : String → String)
        (joinFn : String → String → String) (statOk : String → Bool) (ip ff : String),
        strStartsWith ip "." = false →
          resolveImportPath resolveFn dirnameFn joinFn statOk ip ff = none)
  ∧ (∀ (resolveFn : String → String → String) (dirnameFn : String → String)
        (joinFn : String → String → String) (statOk : String → Bool) (ip ff : String),
        strStartsWith ip "." = true →
          resolveImportPath resolveFn dirnameFn joinFn statOk ip ff
            = (resolveCandidates (resolveFn (dirnameFn ff) ip) joinFn).find? statOk)
  ∧ resolveImportPath c6Resolve c6Dirname c6Join c6StatOk "./posts.contract"
      "/proj/src/posts.controller.ts" = some "/proj/src/posts.contract/index.ts" := by
  refine ⟨?_, ?_, ?_⟩
  · intro resolveFn dirnameFn joinFn statOk ip ff h
    simp [resolveImportPath, h]
  · intro resolveFn dirnameFn joinFn statOk ip ff h
    simp only [resolveImportPath, h, if_true]
    generalize resolveFn (dirnameFn ff) ip = rp
    simp only [resolveCandidates, candidateExtensions, List.map]
    by_cases h1 : statOk (rp ++ ".ts") <;> by_cases h2 : statOk (rp ++ ".tsx") <;>
      by_cases h3 : statOk (rp ++ ".js") <;> by_cases h4 : statOk (rp ++ ".jsx") <;>
      by_cases h5 : statOk (joinFn rp "index.ts") <;>
      by_cases h6 : statOk (joinFn rp "index.tsx") <;>
      by_cases h7 : statOk (joinFn rp "index.js") <;>
      by_cases h8 : statOk (joinFn rp "index.jsx") <;>
      simp [List.findSome?, List.find?, h1, h2, h3, h4, h5, h6, h7, h8]
  · rfl

/-- C6 witness: both general parts applied at concrete inputs. -/
theorem claim_C6_witness :
    (strStartsWith "@ts-rest/core" "." = false
      ∧ resolveImportPath c6Resolve c6Dirname c6Join c6StatOk "@ts-rest/core"
          "/proj/src/posts.controller.ts" = none)
  ∧ (strStartsWith "./posts.contract" "." = true
      ∧ resolveImportPath c6Resolve c6Dirname c6Join c6StatOk "./posts.contract"
          "/proj/src/posts.controller.ts"
        = (resolveCandidates (c6Resolve (c6Dirname "/proj/src/posts.controller.ts")
            "./posts.contract") c6Join).find? c6StatOk) :=
  ⟨⟨rfl, claim_C6_module_resolution.1 c6Resolve c6Dirname c6Join c6StatOk
      "@ts-rest/core" "/proj/src/posts.controller.ts" rfl⟩,
   ⟨rfl, claim_C6_module_resolution.2.1 c6Resolve c6Dirname c6Join c6StatOk
      "./posts.contract" "/proj/src/posts.controller.ts" rfl⟩⟩

/-- C7 amended: the export-table builder stores a binding exactly when
its initializer evaluates to a truthy value (not Null, and also not
false, zero or the empty string); a truthy single-binding export is
additionally aliased under default; a non-exported or multi-binding
statement adds no default alias; and an export assignment stores its
truthy evaluated value under default (overwriting any prior one) and
stores nothing when the value is falsy. -/
theorem claim_C7_amended :
    (∀ (E : List (String × Value)) (n : String) (i : Expr),
        truthy (extractObjectLiteral i) = true →
          getKey (processVariableStatement true [⟨some n, some i⟩] E) n
            = some (extractObjectLiteral i))
  ∧ (∀ (E : List (String × Value)) (n : String) (i : Expr),
        truthy (extractObjectLiteral i) = true →
          getKey (processVariableStatement true [⟨some n, some i⟩] E) "default"
            = some (extractObjectLiteral i))
  ∧ (∀ (E : List (String × Value)) (n : String) (i : Expr),
        truthy (extractObjectLiteral i) = true → n ≠ "default" →
          getKey (processVariableStatement false [⟨some n, some i⟩] E) "default"
            = getKey E "default")
  ∧ (∀ (ex : Bool) (E : List (String × Value)) (n : String) (i : Expr),
        truthy (extractObjectLiteral i) = false →
          processVariableStatement ex [⟨some n, some i⟩] E = E)
  ∧ (∀ (ex : Bool) (E : List (String × Value)) (n1 : String) (i1 : Expr)
        (n2 : String) (i2 : Expr), n1 ≠ "default" → n2 ≠ "default" →
          getKey (processVariableStatement ex [⟨some n1, some i1⟩, ⟨some n2, some i2⟩] E)
              "default"
            = getKey E "default")
  ∧ (∀ (E : List (String × Value)) (e : Expr),
        truthy (extractObjectLiteral e) = true →
          getKey (processExportAssignment e E) "default" = some (extractObjectLiteral e))
  ∧ (∀ (E : List (String × Value)) (e : Expr),
        truthy (extractObjectLiteral e) = false → processExportAssignment e E = E) := by
  have hsingle : ∀ (E : List (String × Value)) (n : String) (i : Expr),
      truthy (extractObjectLiteral i) = true →
        processVariableStatement true [⟨some n, some i⟩] E
          = setKey (setKey E n (extractObjectLiteral i)) "default" (extractObjectLiteral i) := by
    intro E n i ht
    simp [processVariableStatement, processDecls, ht]
  refine ⟨?_, ?_, ?_, ?_, ?_, ?_, ?_⟩
  · intro E n i ht
    rw [hsingle E n i ht]
    by_cases hn : n = "default"
    · rw [hn, getKey_setKey_self]
    · rw [getKey_setKey_ne _ _ _ _ (fun hh => hn hh.symm), getKey_setKey_self]
  · intro E n i ht
    rw [hsingle E n i ht, getKey_setKey_self]
  · intro E n i ht hn
    have hres : processVariableStatement false [⟨some n, some i⟩] E
        = setKey E n (extractObjectLiteral i) := by
      simp [processVariableStatement, processDecls, ht]
    rw [hres, getKey_setKey_ne _ _ _ _ hn]
  · intro ex E n i ht
    simp [processVariableStatement, processDecls, ht]
  · intro ex E n1 i1 n2 i2 h1 h2
    by_cases ht1 : truthy (extractObjectLiteral i1) = true <;>
      by_cases ht2 : truthy (extractObjectLiteral i2) = true
    · have hres : processVariableStatement ex [⟨some n1, some i1⟩, ⟨some n2, some i2⟩] E
          = setKey (setKey E n1 (extractObjectLiteral i1)) n2 (extractObjectLiteral i2) := by
        simp [processVariableStatement, processDecls, ht1, ht2]
      rw [hres, getKey_setKey_ne _ _ _ _ h2, getKey_setKey_ne _ _ _ _ h1]
    · have hres : processVariableStatement ex [⟨some n1, some i1⟩, ⟨some n2, some i2⟩] E
          = setKey E n1 (extractObjectLiteral i1) := by
        simp [processVariableStatement, processDecls, ht1, ht2]
      rw [hres, getKey_setKey_ne _ _ _ _ h1]
    · have hres : processVariableStatement ex [⟨some n1, some i1⟩, ⟨some n2, some i2⟩] E
          = setKey E n2 (extractObjectLiteral i2) := by
        simp [processVariableStatement, processDecls, ht1, ht2]
      rw [hres, getKey_setKey_ne _ _ _ _ h2]
    · have hres : processVariableStatement ex [⟨some n1, some i1⟩, ⟨some n2, some i2⟩] E
          = E := by
        simp [processVariableStatement, processDecls, ht1, ht2]
      rw [hres]
  · intro E e ht
    simp [processExportAssignment, ht, getKey_setKey_self]
  · intro E e ht
    simp [processExportAssignment, ht]

/-- C7 witness: the amended storage rules applied at concrete
statements (a truthy exported single binding, a falsy initializer, a
two-binding export, and an export assignment). -/
theorem claim_C7_witness :
    (truthy (extractObjectLiteral (Expr.strLit "x")) = true
      ∧ getKey (processVariableStatement true [⟨some "a", some (Expr.strLit "x")⟩] [])
          "default" = some (extractObjectLiteral (Expr.strLit "x")))
  ∧ (truthy (extractObjectLiteral Expr.falseLit) = false
      ∧ processVariableStatement true [⟨some "flag", some Expr.falseLit⟩] [] = [])
  ∧ ("a" ≠ "default" ∧ "b" ≠ "default"
      ∧ getKey (processVariableStatement true
          [⟨some "a", some (Expr.strLit "x")⟩, ⟨some "b", some (Expr.strLit "y")⟩] [])
          "default" = none)
  ∧ (truthy (extractObjectLiteral (Expr.strLit "z")) = true
      ∧ getKey (processExportAssignment (Expr.strLit "z") []) "default"
          = some (extractObjectLiteral (Expr.strLit "z"))) := by
  refine ⟨⟨rfl, ?_⟩, ⟨rfl, ?_⟩, ⟨by decide, by decide, ?_⟩, ⟨rfl, ?_⟩⟩
  · exact claim_C7_amended.1 [] "a" (Expr.strLit "x") rfl
  · exact claim_C7_amended.2.2.2.1 true [] "flag" Expr.falseLit rfl
  · exact claim_C7_amended.2.2.2.2.1 true [] "a" (Expr.strLit "x") "b" (Expr.strLit "y")
      (by decide) (by decide)
  · exact claim_C7_amended.2.2.2.2.2.1 [] (Expr.strLit "z") rfl

/-- C8: decorator extraction silently skips — returning none, never an
error — any decorator that is not a call expression, any call with zero
or more than one arguments, and any single-argument call whose
argument's terminal base expression is not a plain identifier; and a
skipped decorator leaves the extraction of the other decorators of the
file unchanged. -/
theorem claim_C8_silent_skip :
    (∀ e : Expr, isCallExpression e = false → analyzeDecorator e = none)
  ∧ (∀ (callee : Expr) (args : List Expr), args.length ≠ 1 →
        analyzeDecorator (Expr.call callee args) = none)
  ∧ (∀ (callee arg : Expr), isIdentifierExpr (terminalBase arg) = false →
        analyzeDecorator (Expr.call callee [arg]) = none)
  ∧ (∀ (ds1 ds2 : List Expr) (e : Expr), analyzeDecorator e = none →
        analyzeDecorators (ds1 ++ e :: ds2) = analyzeDecorators (ds1 ++ ds2)) := by
  refine ⟨?_, ?_, ?_, ?_⟩
  · intro e h
    cases e
    case call callee args => exact absurd h (by simp [isCallExpression])
    all_goals rfl
  · intro callee args h
    simp only [analyzeDecorator]
    by_cases hd : isTsRestHandlerDecorator callee = true
    · rw [if_neg (not_not_intro hd)]
      cases args with
      | nil => rfl
      | cons a rest =>
          cases rest with
          | nil => exact absurd (by simp : ([a] : List Expr).length = 1) h
          | cons b rest2 => rfl
    · rw [if_pos hd]
  · intro callee arg h
    simp only [analyzeDecorator]
    by_cases hd : isTsRestHandlerDecorator callee = true
    · rw [if_neg (not_not_intro hd)]
      show extractContractReference arg = none
      unfold extractContractReference
      exact extractContractReferenceLoop_none_aux (sizeOf arg) arg le_rfl h []
    · rw [if_pos hd]
  · intro ds1 ds2 e h
    simp [analyzeDecorators, List.filterMap_append, List.filterMap_cons, h]

/-- C8 witness: the skip rules applied at a non-call decorator, a
zero-argument call, the decorator whose argument base is a function
call, and a decorator list containing that skipped decorator between
two extractable ones. -/
theorem claim_C8_witness :
    (isCallExpression Expr.other = false ∧ analyzeDecorator Expr.other = none)
  ∧ (([] : List Expr).length ≠ 1
      ∧ analyzeDecorator (Expr.call (Expr.ident "TsRestHandler") []) = none)
  ∧ (isIdentifierExpr (terminalBase
        (Expr.propAccess (Expr.call (Expr.ident "getContract") []) "createPost")) = false
      ∧ analyzeDecorator c8CallBaseDecorator = none)
  ∧ (analyzeDecorator c8CallBaseDecorator = none
      ∧ analyzeDecorators [c8GoodDecorator, c8CallBaseDecorator, c8GoodDecorator]
          = analyzeDecorators [c8GoodDecorator, c8GoodDecorator]) := by
  refine ⟨⟨rfl, ?_⟩, ⟨by decide, ?_⟩, ⟨rfl, ?_⟩, ⟨?_, ?_⟩⟩
  · exact claim_C8_silent_skip.1 Expr.other rfl
  · exact claim_C8_silent_skip.2.1 (Expr.ident "TsRestHandler") [] (by decide)
  · exact claim_C8_silent_skip.2.2.1 (Expr.ident "TsRestHandler")
      (Expr.propAccess (Expr.call (Expr.ident "getContract") []) "createPost") rfl
  · exact claim_C8_silent_skip.2.2.1 (Expr.ident "TsRestHandler")
      (Expr.propAccess (Expr.call (Expr.ident "getContract") []) "createPost") rfl
  · exact claim_C8_silent_skip.2.2.2 [c8GoodDecorator] [c8GoodDecorator] c8CallBaseDecorator
      (claim_C8_silent_skip.2.2.1 (Expr.ident "TsRestHandler")
        (Expr.propAccess (Expr.call (Expr.ident "getContract") []) "createPost") rfl)

/-- C10: in extractTsRestMethodCall the options argument is merged
after the method tag and the first-argument path are set: when the
evaluated options object carries a method or path key, the merged
object's method/path is the options value (overwriting the uppercased
verb and the string-literal path); when it does not, the verb-derived
method and literal path survive. -/
theorem claim_C10_options_merge (b : Expr) (verb p : String) (e2 : Expr)
    (os : List (String × Value))
    (hverb : httpMethods.contains (strToLower verb) = true)
    (hopts : extractObjectLiteral e2 = Value.obj os) :
    (∀ mv : Value, getKey os "method" = some mv →
        getProp (extractObjectLiteral
            (Expr.call (Expr.propAccess b verb) [Expr.strLit p, e2])) "method" = some mv)
  ∧ (∀ pv : Value, getKey os "path" = some pv →
        getProp (extractObjectLiteral
            (Expr.call (Expr.propAccess b verb) [Expr.strLit p, e2])) "path" = some pv)
  ∧ (getKey os "method" = none →
        getProp (extractObjectLiteral
            (Expr.call (Expr.propAccess b verb) [Expr.strLit p, e2])) "method"
          = some (Value.str (strToUpper verb)))
  ∧ (getKey os "path" = none →
        getProp (extractObjectLiteral
            (Expr.call (Expr.propAccess b verb) [Expr.strLit p, e2])) "path"
          = some (Value.str p)) := by
  have hrouter : isRouterCall (Expr.propAccess b verb) = false := by
    simp only [isRouterCall, decide_eq_false_iff_not]
    intro hv
    rw [hv] at hverb
    exact absurd hverb (by decide)
  have hm : isTsRestMethodCall (Expr.propAccess b verb) = true := hverb
  have hnd : keysNodup os := keysNodup_extractObjectLiteral e2 os hopts
  have hext : extractObjectLiteral (Expr.call (Expr.propAccess b verb) [Expr.strLit p, e2])
      = Value.obj (os.foldl (fun t q => setKey t q.1 q.2)
          (setKey (setKey
            [("method", Value.str (strToUpper verb)), ("__method", Value.str (strToUpper verb)),
             ("__call", Value.bool true)] "path" (Value.str p)) "__path" (Value.str p))) := by
    simp only [extractObjectLiteral, hrouter, Bool.false_eq_true, if_false, hm, if_true,
      extractTsRestMethodCall, hopts]
    simp [truthy, assignValue]
  refine ⟨?_, ?_, ?_, ?_⟩
  · intro mv hmv
    rw [hext]
    show getKey _ "method" = some mv
    exact getKey_foldl_setKey_of_some os "method" mv _ hnd hmv
  · intro pv hpv
    rw [hext]
    show getKey _ "path" = some pv
    exact getKey_foldl_setKey_of_some os "path" pv _ hnd hpv
  · intro hnone
    rw [hext]
    show getKey _ "method" = some (Value.str (strToUpper verb))
    rw [getKey_foldl_setKey_of_none os "method" _ hnone]
    rw [getKey_setKey_ne _ _ _ _ (by decide : ("__path" : String) ≠ "method")]
    rw [getKey_setKey_ne _ _ _ _ (by decide : ("path" : String) ≠ "method")]
    rfl
  · intro hnone
    rw [hext]
    show getKey _ "path" = some (Value.str p)
    rw [getKey_foldl_setKey_of_none os "path" _ hnone]
    rw [getKey_setKey_ne _ _ _ _ (by decide : ("__path" : String) ≠ "path")]
    exact getKey_setKey_self _ _ _

/-- C10 witness: the merge-order theorem applied at the builder call
c.PoSt with path /x and options overriding both method and path. -/
theorem claim_C10_witness :
    httpMethods.contains (strToLower "PoSt") = true
  ∧ extractObjectLiteral c10Options = Value.obj
      [("summary", Value.str "s"), ("method", Value.str "OVERRIDDEN"),
       ("path", Value.str "/overridden")]
  ∧ getProp (extractObjectLiteral (Expr.call (Expr.propAccess (Expr.ident "c") "PoSt")
        [Expr.strLit "/x", c10Options])) "method" = some (Value.str "OVERRIDDEN")
  ∧ getProp (extractObjectLiteral (Expr.call (Expr.propAccess (Expr.ident "c") "PoSt")
        [Expr.strLit "/x", c10Options])) "path" = some (Value.str "/overridden") := by
  refine ⟨rfl, rfl, ?_, ?_⟩
  · exact (claim_C10_options_merge (Expr.ident "c") "PoSt" "/x" c10Options
      [("summary", Value.str "s"), ("method", Value.str "OVERRIDDEN"),
       ("path", Value.str "/overridden")] rfl rfl).1 (Value.str "OVERRIDDEN") rfl
  · exact (claim_C10_options_merge (Expr.ident "c") "PoSt" "/x" c10Options
      [("summary", Value.str "s"), ("method", Value.str "OVERRIDDEN"),
       ("path", Value.str "/overridden")] rfl rfl).2.1 (Value.str "/overridden") rfl

end TsRestAnnotation
